import Mathlib

/-!
Verification development for the ChronoRAG bi-temporal retrieval core.

Shallow embedding conventions:
- Python `datetime` values are modelled as rational UTC timestamps (seconds
  since the epoch 1970-01-01T00:00:00Z).  The date parsing layer computes
  whole-second timestamps in `ℤ` and casts into `ℚ` at the boundary.
- Python `float` quantities (scores, weights, durations) are modelled as `ℚ`,
  i.e. with exact real arithmetic.
- Python `str` values are `String`/`List Char`; the ASCII fragment of the
  Python semantics is modelled (`str.lower`, `str.strip`, the `\w`, `\s` and
  `\d` character classes are taken at their ASCII meaning).
- Python `dict` values are insertion-ordered association lists; assignment to
  an existing key updates the entry in place, assignment to a new key appends.
- Fallible Python operations (`datetime.fromisoformat`, `strptime`, `int(...)`)
  are modelled as `Option`-returning functions; the `try/except` structure of
  the source becomes the corresponding `Option` match.
-/

/-! ## Python character and string primitives (src/app/utils helpers) -/

/-- ASCII model of the Python whitespace class `\s` (space, tab, LF, CR, VT, FF). -/
def isPyWs (c : Char) : Bool :=
  c = ' ' || c = '\t' || c = '\n' || c = '\r' || c = '\x0b' || c = '\x0c'

/-- ASCII model of the Python regex word class `\w` (alphanumerics and underscore). -/
def isWordChar (c : Char) : Bool :=
  c.isAlphanum || c = '_'

/-- Numeric value of a decimal digit character. -/
def digitVal (c : Char) : ℕ := c.toNat - '0'.toNat

/-- Model of Python `str.strip()` on a character list (ASCII whitespace). -/
def pyStrip (l : List Char) : List Char :=
  ((l.dropWhile isPyWs).reverse.dropWhile isPyWs).reverse

/-- Model of Python `str.lower()` on a character list (ASCII case folding). -/
def pyLower (l : List Char) : List Char :=
  l.map Char.toLower

/-! ## Proleptic Gregorian calendar arithmetic (model of Python `datetime`) -/

/-- Gregorian leap-year test, as used by Python `datetime`. -/
def isLeap (y : ℕ) : Bool :=
  (y % 4 = 0 && y % 100 ≠ 0) || y % 400 = 0

/-- Length in days of month `m` (1-based) of year `y`; 0 for an invalid month index. -/
def daysInMonth (y m : ℕ) : ℕ :=
  match m with
  | 1 => 31 | 2 => if isLeap y then 29 else 28 | 3 => 31 | 4 => 30 | 5 => 31
  | 6 => 30 | 7 => 31 | 8 => 31 | 9 => 30 | 10 => 31 | 11 => 30 | 12 => 31
  | _ => 0

/-- Days in year `y` strictly before the first day of month `m`. -/
def daysBeforeMonth (y m : ℕ) : ℕ :=
  ((List.range (m - 1)).map (fun i => daysInMonth y (i + 1))).sum

/-- Days from 0001-01-01 to the first day of year `y` (proleptic Gregorian,
matching `datetime.toordinal`); meaningful for `y ≥ 1`. -/
def daysBeforeYear (y : ℕ) : ℕ :=
  let n := y - 1
  365 * n + n / 4 - n / 100 + n / 400

/-- Day ordinal of the Unix epoch 1970-01-01 relative to 0001-01-01. -/
def epochDays : ℕ := daysBeforeYear 1970

/-- UTC timestamp (whole seconds since the epoch) of the date `y-m-d`. -/
def tsOfDate (y m d : ℕ) : ℤ :=
  86400 * (((daysBeforeYear y + daysBeforeMonth y m + (d - 1) : ℕ) : ℤ) - (epochDays : ℤ))

/-- UTC timestamp of the datetime `y-m-d hh:mm:ss`. -/
def tsOfDateTime (y m d hh mi ss : ℕ) : ℤ :=
  tsOfDate y m d + 3600 * hh + 60 * mi + ss

/-- Validity of a `datetime.date(y, m, d)` construction (raises `ValueError` otherwise). -/
def validDate (y m d : ℕ) : Bool :=
  1 ≤ y && y ≤ 9999 && 1 ≤ m && m ≤ 12 && 1 ≤ d && d ≤ daysInMonth y m

/-! ## parse_date (src/app/utils/time_windows.py)

The source extracts the first ISO-shaped substring with the regex
`(\d{4}-\d{2}-\d{2})(?:[T ](\d{2}:\d{2}(?::\d{2})?)Z?)?`, then attempts
`datetime.fromisoformat` on it (falling through on `ValueError`); otherwise it
tries the month-name formats of `_parse_month_name`; otherwise it returns the
epoch fallback 1970-01-01 UTC. -/

/-- Captured pieces of one syntactic match of the ISO regex: the date digits and
the optional `hh:mm[:ss]` time group. -/
structure IsoMatch where
  y : ℕ
  m : ℕ
  d : ℕ
  time : Option (ℕ × ℕ × Option ℕ)
deriving DecidableEq, Repr

/-- Match of the optional time group `(?:[T ](\d{2}:\d{2}(?::\d{2})?)Z?)?`
directly after the date digits. -/
def tryIsoTime : List Char → Option (ℕ × ℕ × Option ℕ)
  | sep :: h1 :: h2 :: ':' :: m1 :: m2 :: rest =>
    if (sep = 'T' ∨ sep = ' ') ∧ h1.isDigit ∧ h2.isDigit ∧ m1.isDigit ∧ m2.isDigit then
      let hh := 10 * digitVal h1 + digitVal h2
      let mi := 10 * digitVal m1 + digitVal m2
      match rest with
      | ':' :: s1 :: s2 :: _ =>
        if s1.isDigit ∧ s2.isDigit then some (hh, mi, some (10 * digitVal s1 + digitVal s2))
        else some (hh, mi, none)
      | _ => some (hh, mi, none)
    else none
  | _ => none

/-- Attempt of the ISO regex anchored at the head of the list. -/
def tryIsoAt : List Char → Option IsoMatch
  | y1 :: y2 :: y3 :: y4 :: '-' :: m1 :: m2 :: '-' :: d1 :: d2 :: rest =>
    if y1.isDigit ∧ y2.isDigit ∧ y3.isDigit ∧ y4.isDigit ∧
        m1.isDigit ∧ m2.isDigit ∧ d1.isDigit ∧ d2.isDigit then
      some ⟨1000 * digitVal y1 + 100 * digitVal y2 + 10 * digitVal y3 + digitVal y4,
            10 * digitVal m1 + digitVal m2,
            10 * digitVal d1 + digitVal d2,
            tryIsoTime rest⟩
    else none
  | _ => none

/-- Leftmost syntactic match of the ISO regex (model of `re.search`). -/
def isoSearch : List Char → Option IsoMatch
  | [] => none
  | c :: rest =>
    match tryIsoAt (c :: rest) with
    | some m => some m
    | none => isoSearch rest

/-- Model of `datetime.fromisoformat` on the matched text: range validation
followed by conversion to a timestamp; `none` models `ValueError`. -/
def isoToTs (m : IsoMatch) : Option ℤ :=
  if validDate m.y m.m m.d then
    match m.time with
    | none => some (tsOfDate m.y m.m m.d)
    | some (hh, mi, s) =>
      if hh ≤ 23 ∧ mi ≤ 59 ∧ s.getD 0 ≤ 59 then
        some (tsOfDateTime m.y m.m m.d hh mi (s.getD 0))
      else none
  else none

/-- Full English month names with their month numbers, as matched by `%B`. -/
def monthNamesFull : List (List Char × ℕ) :=
  [("january".data, 1), ("february".data, 2), ("march".data, 3), ("april".data, 4),
   ("may".data, 5), ("june".data, 6), ("july".data, 7), ("august".data, 8),
   ("september".data, 9), ("october".data, 10), ("november".data, 11), ("december".data, 12)]

/-- Abbreviated English month names with their month numbers, as matched by `%b`. -/
def monthNamesAbbr : List (List Char × ℕ) :=
  [("jan".data, 1), ("feb".data, 2), ("mar".data, 3), ("apr".data, 4),
   ("may".data, 5), ("jun".data, 6), ("jul".data, 7), ("aug".data, 8),
   ("sep".data, 9), ("oct".data, 10), ("nov".data, 11), ("dec".data, 12)]

/-- Case-insensitive literal prefix match, returning the remainder. -/
def stripPrefixCI : List Char → List Char → Option (List Char)
  | [], l => some l
  | _ :: _, [] => none
  | p :: ps, c :: cs => if c.toLower = p then stripPrefixCI ps cs else none

/-- Match of a month-name directive (`%B` or `%b`) at the head of the input. -/
def parseMonthName (names : List (List Char × ℕ)) (l : List Char) : Option (ℕ × List Char) :=
  names.findSome? (fun nm => (stripPrefixCI nm.1 l).map (fun rest => (nm.2, rest)))

/-- Match of the `\s+` that `strptime` substitutes for whitespace in a format. -/
def wsRun (l : List Char) : Option (List Char) :=
  match l with
  | c :: _ => if isPyWs c then some (l.dropWhile isPyWs) else none
  | [] => none

/-- Match of `%Y`: exactly four decimal digits. -/
def parseYear4 : List Char → Option (ℕ × List Char)
  | a :: b :: c :: d :: rest =>
    if a.isDigit ∧ b.isDigit ∧ c.isDigit ∧ d.isDigit then
      some (1000 * digitVal a + 100 * digitVal b + 10 * digitVal c + digitVal d, rest)
    else none
  | _ => none

/-- Two-digit alternatives of the `%d` pattern `3[01]|[12]\d|0[1-9]`. -/
def twoDigitDayOK (a b : Char) : Bool :=
  (a = '3' && (b = '0' || b = '1')) || a = '1' || a = '2' || (a = '0' && b ≠ '0')

/-- Ordered candidate matches of `%d` (two-digit alternatives before the
single-digit one, as in the CPython `strptime` pattern). -/
def dayCandidates : List Char → List (ℕ × List Char)
  | a :: b :: rest =>
    (if a.isDigit && b.isDigit && twoDigitDayOK a b
     then [(10 * digitVal a + digitVal b, rest)] else []) ++
    (if '1' ≤ a && a ≤ '9' then [(digitVal a, b :: rest)] else [])
  | [a] => if '1' ≤ a && a ≤ '9' then [(digitVal a, [])] else []
  | [] => []

/-- Match of the whole format `"%B %d, %Y"` (or `%b`): month name, whitespace,
day, comma, whitespace, four-digit year, end of input. -/
def tryFmtDayYear (names : List (List Char × ℕ)) (l : List Char) : Option (ℕ × ℕ × ℕ) :=
  (parseMonthName names l).bind fun (m, r1) =>
    (wsRun r1).bind fun r2 =>
      (dayCandidates r2).findSome? fun (d, r3) =>
        match r3 with
        | ',' :: r4 =>
          (wsRun r4).bind fun r5 =>
            (parseYear4 r5).bind fun (y, r6) =>
              if r6 = [] then some (y, m, d) else none
        | _ => none

/-- Match of the whole format `"%B %Y"` (or `%b`): month name, whitespace,
four-digit year, end of input; the day defaults to 1. -/
def tryFmtYear (names : List (List Char × ℕ)) (l : List Char) : Option (ℕ × ℕ × ℕ) :=
  (parseMonthName names l).bind fun (m, r1) =>
    (wsRun r1).bind fun r2 =>
      (parseYear4 r2).bind fun (y, r3) =>
        if r3 = [] then some (y, m, 1) else none

/-- Model of `_parse_month_name` followed by timestamp conversion: the four
formats are tried in source order, and a parse whose fields fail `datetime`
validation (a `ValueError`) falls through to the next format. -/
def monthToTs (t : List Char) : Option ℤ :=
  [tryFmtDayYear monthNamesFull t, tryFmtDayYear monthNamesAbbr t,
   tryFmtYear monthNamesFull t, tryFmtYear monthNamesAbbr t].findSome?
    (fun r => r.bind fun (y, m, d) =>
      if validDate y m d then some (tsOfDate y m d) else none)

/-- Integer-second core of `parse_date`: strip, first-ISO-match extraction with
`ValueError` fall-through, month-name fallback, epoch fallback. -/
def parseDateZ (text : List Char) : ℤ :=
  let t := pyStrip text
  match isoSearch t with
  | some m =>
    match isoToTs m with
    | some ts => ts
    | none => (monthToTs t).getD 0
  | none => (monthToTs t).getD 0

/-- Embedding of `parse_date` (src/app/utils/time_windows.py): always returns a
UTC timestamp, with the epoch 1970-01-01 (timestamp 0) as final fallback. -/
def parse_date (text : String) : ℚ :=
  ((parseDateZ text.data : ℤ) : ℚ)

/-! ## TimeWindow algebra (src/app/utils/time_windows.py) -/

/-- Embedding of the `TimeWindow` dataclass: a closed-open interval of UTC
timestamps. -/
structure TimeWindow where
  start : ℚ
  «end» : ℚ
deriving DecidableEq, Repr

/-- Embedding of `TimeWindow.duration`: seconds, clamped at zero. -/
def TimeWindow.duration (w : TimeWindow) : ℚ :=
  max 0 (w.«end» - w.start)

/-- Embedding of `TimeWindow.intersects`. -/
def TimeWindow.intersects (a b : TimeWindow) : Prop :=
  ¬(a.«end» ≤ b.start ∨ b.«end» ≤ a.start)

instance (a b : TimeWindow) : Decidable (a.intersects b) := by
  unfold TimeWindow.intersects; infer_instance

/-- Embedding of `TimeWindow.intersection`. -/
def TimeWindow.intersection (a b : TimeWindow) : Option TimeWindow :=
  if a.intersects b then some ⟨max a.start b.start, min a.«end» b.«end»⟩ else none

/-- Timestamp of the default window end `datetime(9999, 12, 31)`. -/
def DT_MAX : ℚ := ((tsOfDate 9999 12 31 : ℤ) : ℚ)

/-- Embedding of `make_window`: default end, UTC normalisation (identity in this
model), auto-swap of inverted inputs. -/
def make_window (start : ℚ) (endOpt : Option ℚ) : TimeWindow :=
  let e := endOpt.getD DT_MAX
  if e < start then ⟨e, start⟩ else ⟨start, e⟩

/-- Embedding of `window_iou`. -/
def window_iou (left right : TimeWindow) : ℚ :=
  match left.intersection right with
  | none => 0
  | some inter =>
    let union := left.duration + right.duration - inter.duration
    if union ≤ 0 then 0 else inter.duration / union

/-- Embedding of `tx_mismatch_penalty`. -/
def tx_mismatch_penalty (valid_window : TimeWindow) (tx_window : Option TimeWindow) : ℚ :=
  match tx_window with
  | none => 0
  | some tx => if valid_window.intersects tx then 0 else 1

/-- Embedding of `expand_window`. -/
def expand_window (window : TimeWindow) (seconds : ℤ) : TimeWindow :=
  ⟨window.start - (seconds : ℚ), window.«end» + (seconds : ℚ)⟩

/-- Embedding of `hard_mode_pre_mask`. -/
def hard_mode_pre_mask (candidate_window query_window : TimeWindow) : Prop :=
  candidate_window.intersects query_window

instance (a b : TimeWindow) : Decidable (hard_mode_pre_mask a b) := by
  unfold hard_mode_pre_mask; infer_instance

/-- Embedding of `intelligent_decay`: 1 on overlap, else `1 / (1 + gap_days)`
for the minimal day gap between the windows. -/
def intelligent_decay (candidate_window query_window : TimeWindow) : ℚ :=
  if candidate_window.intersects query_window then 1
  else
    let gap := min |candidate_window.start - query_window.«end»|
                   |query_window.start - candidate_window.«end»|
    let days := gap / 86400
    max 0 (1 / (1 + days))


/-! ## Association-list model of Python dict -/

/-- Lookup in an insertion-ordered association list. -/
def lookupAssoc {K V : Type} [DecidableEq K] : List (K × V) → K → Option V
  | [], _ => none
  | (k, v) :: rest, key => if k = key then some v else lookupAssoc rest key

/-- Replacement of the value at an existing key, keeping its position. -/
def updateAssoc {K V : Type} [DecidableEq K] : List (K × V) → K → V → List (K × V)
  | [], _, _ => []
  | (k, v) :: rest, key, value =>
    if k = key then (k, value) :: rest else (k, v) :: updateAssoc rest key value

/-- Model of Python dict assignment `m[k] = v`: update in place when the key
exists, append otherwise. -/
def dictInsert {K V : Type} [DecidableEq K] (m : List (K × V)) (k : K) (v : V) : List (K × V) :=
  match lookupAssoc m k with
  | some _ => updateAssoc m k v
  | none => m ++ [(k, v)]

/-! ## Chrono reducer (src/app/utils/chrono_reducer.py) -/

/-- Embedding of the `ChronoPassage` dataclass. -/
structure ChronoPassage where
  chunk_id : String
  doc_id : String
  text : String
  uri : String
  valid_window : TimeWindow
  authority : ℚ
  score : ℚ
  facets : List (String × String)
  entities : List String
  units : List String
  region : Option String
deriving DecidableEq, Repr

/-- Duplicate key of a passage: `(text.strip().lower(), valid_window.start)`. -/
def passageKey (p : ChronoPassage) : List Char × ℚ :=
  (pyLower (pyStrip p.text.data), p.valid_window.start)

/-- Output order of `reduce_passages`: the stable ascending sort by the key
`(valid_window.start, -authority, -score)`. -/
def reduceKeyLE (p q : ChronoPassage) : Prop :=
  p.valid_window.start < q.valid_window.start ∨
    (p.valid_window.start = q.valid_window.start ∧
      (q.authority < p.authority ∨
        (p.authority = q.authority ∧ q.score ≤ p.score)))

instance (p q : ChronoPassage) : Decidable (reduceKeyLE p q) := by
  unfold reduceKeyLE; infer_instance

/-- One step of the bucket fold of `reduce_passages`: a candidate replaces the
current best of its group when its authority or its score is strictly greater. -/
def reduceStep (bucket : List ((List Char × ℚ) × ChronoPassage)) (p : ChronoPassage) :
    List ((List Char × ℚ) × ChronoPassage) :=
  match lookupAssoc bucket (passageKey p) with
  | none => bucket ++ [(passageKey p, p)]
  | some current =>
    if current.authority < p.authority ∨ current.score < p.score then
      updateAssoc bucket (passageKey p) p
    else bucket

/-- Embedding of `reduce_passages`: group by `passageKey`, keep one entry per
group by the replace rule, output in `(start asc, authority desc, score desc)`
order (Python `sorted` is a stable sort, modelled by insertion sort). -/
def reduce_passages (passages : List ChronoPassage) : List ChronoPassage :=
  let bucket := passages.foldl reduceStep []
  (bucket.map (·.2)).insertionSort reduceKeyLE

/-! ## Versioned store PVDB (src/storage/pvdb/dao.py) -/

/-- Embedding of the `ChunkRecord` dataclass of the store. -/
structure ChunkRecord where
  chunk_id : String
  doc_id : String
  text : String
  uri : String
  valid_window : TimeWindow
  tx_window : Option TimeWindow
  authority : ℚ
  metadata : List (String × String)
  facets : List (String × String)
  entities : List String
  tags : List String
  units : List String
  time_granularity : Option String
  time_sigma_days : Option ℤ
  external_id : Option String
  version_id : Option String
deriving DecidableEq, Repr

/-- Embedding of the `DocumentRecord` dataclass of the store. -/
structure DocumentRecord where
  doc_id : String
  metadata : List (String × String)
  chunk_ids : List String
deriving DecidableEq, Repr

/-- State of a `PVDB` instance.  The embedding index is an external capability
whose registration calls do not affect the stored records, so it is not part of
the modelled state. -/
structure PVDB where
  chunks : List (String × ChunkRecord)
  documents : List (String × DocumentRecord)
  counter : ℕ
  dirty : Bool
deriving DecidableEq, Repr

/-- Decimal digits of `n`, most significant first (fuel-indexed so that the
kernel can evaluate it). -/
def natDigitsAux : ℕ → ℕ → List Char
  | 0, _ => []
  | fuel + 1, n =>
    if n = 0 then []
    else natDigitsAux fuel (n / 10) ++ [Char.ofNat ('0'.toNat + n % 10)]

/-- Decimal representation of a natural number. -/
def natDigits (n : ℕ) : List Char :=
  if n = 0 then ['0'] else natDigitsAux n n

/-- Model of the Python format `f"{n:05d}"` for `n ≥ 0`: decimal digits
left-padded with zeros to width 5. -/
def pad5 (n : ℕ) : List Char :=
  List.replicate (5 - (natDigits n).length) '0' ++ natDigits n

/-- Embedding of `PVDB._next_chunk_id` (the id text; the counter increment is
performed by the caller in this model). -/
def next_chunk_id (doc_id : String) (counter : ℕ) : String :=
  doc_id ++ ":chunk:" ++ String.mk (pad5 counter)

/-- Suffix of a chunk id after its last colon: `chunk_id.split(":")[-1]`. -/
def lastColonSeg (l : List Char) : List Char :=
  ((l.reverse.takeWhile (· ≠ ':')).reverse)

/-- Value of a nonempty all-digit character list. -/
def digitsVal? (l : List Char) : Option ℕ :=
  if l ≠ [] ∧ l.all Char.isDigit then
    some (l.foldl (fun acc c => 10 * acc + digitVal c) 0)
  else none

/-- Model of Python `int(s)` on the id suffix: optional sign and decimal digits
(the underscore digit separators Python also tolerates are not modelled; they
cannot occur in a generated id). -/
def pyIntParse (l : List Char) : Option ℤ :=
  match pyStrip l with
  | '-' :: ds => (digitsVal? ds).map (fun n => -(n : ℤ))
  | '+' :: ds => (digitsVal? ds).map (fun n => (n : ℤ))
  | ds => (digitsVal? ds).map (fun n => (n : ℤ))

/-- Embedding of `PVDB._bump_counter`: raise the counter above the numeric
suffix of a loaded chunk id, ignoring unparseable suffixes.  Equals the
source `max(counter, suffix + 1)` because the counter is never negative. -/
def bump_counter (counter : ℕ) (chunk_id : String) : ℕ :=
  match pyIntParse (lastColonSeg chunk_id.data) with
  | none => counter
  | some n => max counter (n + 1).toNat

/-- Embedding of `PVDB._load` restricted to the store state: insert every
snapshot chunk under its id and bump the counter, then insert every document
with a nonempty id.  The fresh store has counter 1. -/
def loadPVDB (loadedChunks : List ChunkRecord) (loadedDocs : List DocumentRecord) : PVDB :=
  let s1 := loadedChunks.foldl
    (fun (db : PVDB) ch =>
      { db with
        chunks := dictInsert db.chunks ch.chunk_id ch
        counter := bump_counter db.counter ch.chunk_id })
    (⟨[], [], 1, false⟩ : PVDB)
  { s1 with
    documents := loadedDocs.foldl
      (fun docs doc => if doc.doc_id ≠ "" then dictInsert docs doc.doc_id doc else docs)
      s1.documents }

/-- Argument record of `ingest_document` (keyword arguments of the source). -/
structure IngestArgs where
  text : String
  uri : String
  valid_window : TimeWindow
  tx_window : Option TimeWindow
  authority : ℚ
  metadata : List (String × String)
  doc_id : Option String
  external_id : Option String
  version_id : Option String
  facets : List (String × String)
  entities : List String
  tags : Option (List String)
  units : List String
  time_granularity : Option String
  time_sigma_days : Option ℤ
deriving Repr

/-- Model of Python `sorted(set(xs))` on strings. -/
def sortedDedup (l : List String) : List String :=
  l.dedup.insertionSort (· ≤ ·)

/-- Embedding of `PVDB._default_doc_id`, parametrised by the process hash
function standing for `abs(hash(uri))`. -/
def default_doc_id (hashAbs : String → ℕ) (uri : String) : String :=
  "doc:" ++ String.mk (natDigits (hashAbs uri))

/-- Embedding of `PVDB.ingest_document`: resolve the owning document, allocate
a fresh chunk id, build and store the chunk, append it to the document, mark
the store dirty.  The source performs no lineage closure on earlier chunks
sharing the `external_id`. -/
def ingest_document (hashAbs : String → ℕ) (db : PVDB) (args : IngestArgs) :
    ChunkRecord × PVDB :=
  let doc_id := args.doc_id.getD (default_doc_id hashAbs args.uri)
  let document := (lookupAssoc db.documents doc_id).getD ⟨doc_id, [], []⟩
  let chunk_id := next_chunk_id doc_id db.counter
  let chunk : ChunkRecord :=
    { chunk_id := chunk_id
      doc_id := doc_id
      text := args.text
      uri := args.uri
      valid_window := args.valid_window
      tx_window := args.tx_window
      authority := args.authority
      metadata := args.metadata
      facets := args.facets
      entities := sortedDedup args.entities
      tags := sortedDedup (args.tags.getD [])
      units := args.units
      time_granularity := args.time_granularity
      time_sigma_days := args.time_sigma_days
      external_id := args.external_id
      version_id := args.version_id }
  let document := { document with chunk_ids := document.chunk_ids ++ [chunk_id] }
  (chunk,
    { chunks := dictInsert db.chunks chunk_id chunk
      documents := dictInsert db.documents doc_id document
      counter := db.counter + 1
      dirty := true })

/-- Embedding of `PVDB.list_chunks`: the stored chunks sorted (stably) by
`valid_window.start`. -/
def list_chunks (db : PVDB) : List ChunkRecord :=
  (db.chunks.map (·.2)).insertionSort
    (fun a b => a.valid_window.start ≤ b.valid_window.start)

/-- Embedding of `PVDB.temporal_filter`: HARD keeps intersecting chunks with
weight 1, any other mode keeps chunks with positive `intelligent_decay` weight;
the result is sorted by weight descending (stable, as Python `list.sort`). -/
def temporal_filter (candidates : List ChunkRecord) (window : TimeWindow) (mode : String) :
    List (ChunkRecord × ℚ) :=
  let filtered := candidates.filterMap (fun chunk =>
    if mode = "HARD" then
      if hard_mode_pre_mask chunk.valid_window window then some (chunk, (1 : ℚ)) else none
    else
      let weight := intelligent_decay chunk.valid_window window
      if weight ≤ 0 then none else some (chunk, weight))
  filtered.insertionSort (fun a b => b.2 ≤ a.2)

/-! ## DHQC controller (src/core/dhqc/controller.py) -/

/-- Embedding of the `DHQCPlan` dataclass. -/
structure DHQCPlan where
  hops : ℤ
  max_candidates : ℤ
  reason : String
deriving DecidableEq, Repr

/-- Configuration dict read by `DHQCController.__init__`; a `none` field stands
for a missing key, replaced by the source default. -/
structure DHQCConfig where
  tau : Option ℚ
  delta : Option ℚ
  n_max : Option ℤ
  n_hard : Option ℤ
  fanout_cap_total : Option ℤ
deriving Repr

/-- Embedding of `DHQCController._marginal_gain`. -/
def marginal_gain (prev current : ℚ) : ℚ :=
  if prev ≤ 0 then current else max 0 ((current - prev) / prev)

/-- Embedding of `DHQCController.plan`, taking the coverage field of the
signals.  The mode cap is `n_hard` for HARD mode and `n_max` otherwise. -/
def DHQCController.plan (cfg : DHQCConfig) (mode : String) (coverage : ℚ) : DHQCPlan :=
  let tau := cfg.tau.getD (4 / 5)
  let delta := cfg.delta.getD (1 / 5)
  let n_max := cfg.n_max.getD 3
  let n_hard := cfg.n_hard.getD 6
  let fanout_cap_total := cfg.fanout_cap_total.getD 250000
  let hops : ℤ := 1
  let reason := "baseline"
  let (hops, reason) :=
    if coverage < tau then (min (if mode = "HARD" then n_hard else n_max) 3, "low_coverage")
    else (hops, reason)
  let (hops, reason) :=
    if marginal_gain tau coverage < delta then (max 1 (hops - 1), "marginal_gain_low")
    else (hops, reason)
  let max_candidates := min fanout_cap_total (if 1 < hops then 24 else 12)
  ⟨hops, max_candidates, reason⟩

/-! ## Fusion (src/app/utils/fusion.py) -/

/-- Clamp into [0, 1], the `max(0.0, min(1.0, x))` idiom of the source. -/
def clamp01 (x : ℚ) : ℚ := max 0 (min 1 x)

/-- Embedding of `monotone_temporal_fusion`.  The weight dict is modelled as a
partial map from keys to values; `weights.get(k, default)` is `(weights k).getD
default`.  Every coefficient is clamped before use, exactly as in the source. -/
def monotone_temporal_fusion (r t a tx_mismatch age_penalty : ℚ)
    (weights : String → Option ℚ) : ℚ :=
  let alpha := max 0 (min 1 ((weights "alpha").getD (11 / 20)))
  let beta_time := max 0 (min 1 ((weights "beta_time").getD (1 / 4)))
  let gamma_auth := max 0 (min 1 ((weights "gamma_authority").getD (3 / 20)))
  let delta_age := max 0 ((weights "delta_age").getD (1 / 20))
  let tx_gamma := max 0 ((weights "tx_gamma").getD (2 / 5))
  let base := alpha * clamp01 r + beta_time * clamp01 t + gamma_auth * clamp01 a
  let penalty := delta_age * clamp01 age_penalty + tx_gamma * clamp01 tx_mismatch
  let combined := max 0 (base - penalty)
  min 1 combined

/-! ## Temporal router (src/core/router/temporal_router.py)

Only the window-inference layer is embedded (`_infer_window`,
`_detect_time_signals`, the three `_build_*_window` helpers and
`normalize_time_hint` from src/core/gsm/tnormalize.py); axis and mode
resolution are separate code paths not touched by the claims. -/

/-- Word boundary after a match: end of input or a non-word character. -/
def boundaryAfter (l : List Char) : Bool :=
  match l with
  | [] => true
  | c :: _ => !isWordChar c

/-- Match of the year pattern `\b(1[0-9]{3}|20[0-9]{2})\b` anchored at the head
of the list (the left boundary is checked by the scanner). -/
def yearAt : List Char → Option ℕ
  | a :: b :: c :: d :: rest =>
    if a.isDigit ∧ b.isDigit ∧ c.isDigit ∧ d.isDigit ∧
        (a = '1' ∨ (a = '2' ∧ b = '0')) ∧ boundaryAfter rest then
      some (1000 * digitVal a + 100 * digitVal b + 10 * digitVal c + digitVal d)
    else none
  | _ => none

/-- Year matches of `YEAR_PATTERN.finditer`, scanning every position whose
previous character is not a word character.  A match is never contained in
another candidate span, so position-wise scanning agrees with `finditer`. -/
def scanYears (prevWord : Bool) : List Char → List ℕ
  | [] => []
  | c :: rest =>
    (if prevWord then [] else (yearAt (c :: rest)).toList) ++ scanYears (isWordChar c) rest

/-- Embedding of the `years` component of `_detect_time_signals`:
`sorted({int(m.group(1)) for m in YEAR_PATTERN.finditer(query)})`. -/
def detectYears (q : List Char) : List ℕ :=
  ((scanYears false q).dedup).insertionSort (· ≤ ·)

/-- Case-insensitive ordinal suffix `st|nd|rd|th`. -/
def ordSuffixOK (a b : Char) : Bool :=
  (a.toLower = 's' && b.toLower = 't') || (a.toLower = 'n' && b.toLower = 'd') ||
  (a.toLower = 'r' && b.toLower = 'd') || (a.toLower = 't' && b.toLower = 'h')

/-- Match of the century pattern tail `(st|nd|rd|th)\s+century\b`. -/
def centuryTail (l : List Char) : Bool :=
  match l with
  | a :: b :: rest =>
    ordSuffixOK a b &&
      (match wsRun rest with
       | some r2 =>
         match stripPrefixCI "century".data r2 with
         | some r3 => boundaryAfter r3
         | none => false
       | none => false)
  | _ => false

/-- Match of `([0-9]{1,2})(st|nd|rd|th)\s+century\b` anchored at the head; the
two-digit alternative is tried first, backtracking to one digit as the regex
does. -/
def centuryAt : List Char → Option ℕ
  | a :: b :: rest =>
    if a.isDigit ∧ b.isDigit ∧ centuryTail rest then
      some (10 * digitVal a + digitVal b)
    else if a.isDigit ∧ centuryTail (b :: rest) then
      some (digitVal a)
    else none
  | _ => none

/-- Century matches of `CENTURY_PATTERN.finditer`, scanned position-wise at
left word boundaries (no candidate span can contain another match start). -/
def scanCenturies (prevWord : Bool) : List Char → List ℕ
  | [] => []
  | c :: rest =>
    (if prevWord then [] else (centuryAt (c :: rest)).toList) ++
      scanCenturies (isWordChar c) rest

/-- Embedding of the `centuries` component of `_detect_time_signals`. -/
def detectCenturies (q : List Char) : List ℕ :=
  ((scanCenturies false q).dedup).insertionSort (· ≤ ·)

/-- Router configuration slice used by `_infer_window`: the compiled fuzzy
period map entries `(token, from, to)` in insertion order and the
`time_window_defaults` paddings (`none` models a missing key). -/
structure RouterConfig where
  fuzzy_period_map : List (String × String × String)
  decade_padding_years : Option ℤ
  century_padding_years : Option ℤ

/-- Embedding of `_build_period_windows`: compile each configured period into a
ready-made window via `parse_date` and `make_window`. -/
def period_windows (cfg : RouterConfig) : List (String × TimeWindow) :=
  cfg.fuzzy_period_map.map
    (fun e => (e.1, make_window (parse_date e.2.1) (some (parse_date e.2.2))))

/-- Embedding of the `periods` component of `_detect_time_signals`: the tokens
of the period map that occur as substrings of the lowercased query, in map
order. -/
def detectPeriods (cfg : RouterConfig) (q : List Char) : List String :=
  (period_windows cfg).filterMap
    (fun e => if e.1.data <:+: pyLower q then some e.1 else none)

/-- Timestamp of `datetime(y, 1, 1, tzinfo=utc)`; meaningful for `1 ≤ y ≤ 9999`
(outside that range the Python constructor raises). -/
def jan1 (y : ℤ) : ℚ := ((tsOfDate y.toNat 1 1 : ℤ) : ℚ)

/-- Embedding of `TemporalRouter._build_year_window`. -/
def build_year_window (cfg : RouterConfig) (years : List ℕ) : Option (TimeWindow × String) :=
  match years with
  | [] => none
  | [year] =>
    let pad := cfg.decade_padding_years.getD 5
    some (make_window (jan1 (max 1 ((year : ℤ) - pad))) (some (jan1 ((year : ℤ) + pad + 1))),
      "decade")
  | y0 :: y1 :: rest =>
    some (make_window (jan1 (y0 : ℤ))
      (some (jan1 (((y1 :: rest).getLast (List.cons_ne_nil y1 rest) : ℤ) + 1))), "year_range")

/-- Embedding of `TemporalRouter._build_century_window`. -/
def build_century_window (cfg : RouterConfig) (centuries : List ℕ) :
    Option (TimeWindow × String) :=
  match centuries with
  | [] => none
  | century :: _ =>
    let start_year : ℤ := ((century : ℤ) - 1) * 100 + 1
    let end_year : ℤ := (century : ℤ) * 100
    let pad := cfg.century_padding_years.getD 50
    some (make_window (jan1 (max 1 (start_year - pad))) (some (jan1 (end_year + pad + 1))),
      "century")

/-- Embedding of `TemporalRouter._build_period_window`: the first matched token
resolves through the period map (a dataclass window is always truthy). -/
def build_period_window (cfg : RouterConfig) (periods : List String) :
    Option (TimeWindow × String) :=
  periods.findSome?
    (fun token => (lookupAssoc (period_windows cfg) token).map (fun w => (w, "period")))

/-- Keys of an API time-hint dict (`none` models a missing key); a present hint
models a truthy (nonempty) dict. -/
structure TimeHint where
  operator : Option String
  «at» : Option String
  «from» : Option String
  «to» : Option String

/-- Model of Python `str.upper()` (ASCII). -/
def pyUpper (s : String) : String := String.mk (s.data.map Char.toUpper)

/-- Embedding of `normalize_time_hint` (src/core/gsm/tnormalize.py). -/
def normalize_time_hint (time_hint : Option TimeHint) : TimeWindow :=
  match time_hint with
  | none => make_window (parse_date "1970-01-01") (some (parse_date "9999-12-31"))
  | some hint =>
    let op := pyUpper (hint.operator.getD "AS_OF")
    if op = "AS_OF" then
      let atTs := parse_date (hint.«at».getD "1970-01-01")
      make_window atTs (some (atTs + 86400))
    else
      make_window (parse_date (hint.«from».getD "1970-01-01"))
        (some (parse_date (hint.«to».getD "9999-12-31")))

/-- Embedding of `TemporalRouter._infer_window`: hint, then matched period,
then century, then years, then the broad default window. -/
def infer_window (cfg : RouterConfig) (query : String) (time_hint : Option TimeHint) :
    TimeWindow × String :=
  match time_hint with
  | some h => (normalize_time_hint (some h), "hint")
  | none =>
    let q := query.data
    let years := detectYears q
    let centuries := detectCenturies q
    let periods := detectPeriods cfg q
    match (if periods ≠ [] then build_period_window cfg periods else none) with
    | some pw => pw
    | none =>
      match (if centuries ≠ [] then build_century_window cfg centuries else none) with
      | some cw => cw
      | none =>
        match (if years ≠ [] then build_year_window cfg years else none) with
        | some yw => yw
        | none => (make_window (parse_date "0001-01-01") (some (parse_date "2100-01-01")), "broad")

/-! ## Helper lemmas -/

theorem clamp01_nonneg (x : ℚ) : 0 ≤ clamp01 x := le_max_left 0 _

theorem clamp01_le_one (x : ℚ) : clamp01 x ≤ 1 :=
  max_le (by norm_num) (min_le_left 1 x)

theorem clamp01_mono {x y : ℚ} (h : x ≤ y) : clamp01 x ≤ clamp01 y :=
  max_le_max le_rfl (min_le_min le_rfl h)

/-- C3: for all inputs and every weight map, including misconfigured values,
`monotone_temporal_fusion` stays in [0, 1], is non-decreasing in rank,
time weight and authority, and is non-increasing in the tx-mismatch and age
penalties. -/
theorem monotone_temporal_fusion_props
    (r r' t t' a a' tx tx' age age' : ℚ) (weights : String → Option ℚ)
    (hr : r ≤ r') (ht : t ≤ t') (ha : a ≤ a') (htx : tx ≤ tx') (hage : age ≤ age') :
    (0 ≤ monotone_temporal_fusion r t a tx age weights ∧
      monotone_temporal_fusion r t a tx age weights ≤ 1) ∧
    monotone_temporal_fusion r t a tx age weights ≤
      monotone_temporal_fusion r' t a tx age weights ∧
    monotone_temporal_fusion r t a tx age weights ≤
      monotone_temporal_fusion r t' a tx age weights ∧
    monotone_temporal_fusion r t a tx age weights ≤
      monotone_temporal_fusion r t a' tx age weights ∧
    monotone_temporal_fusion r t a tx' age weights ≤
      monotone_temporal_fusion r t a tx age weights ∧
    monotone_temporal_fusion r t a tx age' weights ≤
      monotone_temporal_fusion r t a tx age weights := by
  unfold monotone_temporal_fusion
  refine ⟨⟨?_, ?_⟩, ?_, ?_, ?_, ?_, ?_⟩
  · exact le_min (by norm_num) (le_max_left 0 _)
  · exact min_le_left 1 _
  all_goals
    refine min_le_min le_rfl (max_le_max le_rfl ?_)
  · have := clamp01_mono hr
    have h0 : (0 : ℚ) ≤ max 0 (min 1 ((weights "alpha").getD (11 / 20))) := le_max_left 0 _
    nlinarith [mul_le_mul_of_nonneg_left (clamp01_mono hr) h0]
  · have h0 : (0 : ℚ) ≤ max 0 (min 1 ((weights "beta_time").getD (1 / 4))) := le_max_left 0 _
    nlinarith [mul_le_mul_of_nonneg_left (clamp01_mono ht) h0]
  · have h0 : (0 : ℚ) ≤ max 0 (min 1 ((weights "gamma_authority").getD (3 / 20))) :=
      le_max_left 0 _
    nlinarith [mul_le_mul_of_nonneg_left (clamp01_mono ha) h0]
  · have h0 : (0 : ℚ) ≤ max 0 ((weights "tx_gamma").getD (2 / 5)) := le_max_left 0 _
    nlinarith [mul_le_mul_of_nonneg_left (clamp01_mono htx) h0]
  · have h0 : (0 : ℚ) ≤ max 0 ((weights "delta_age").getD (1 / 20)) := le_max_left 0 _
    nlinarith [mul_le_mul_of_nonneg_left (clamp01_mono hage) h0]

theorem monotone_temporal_fusion_props_witness :
    ((0 : ℚ) ≤ monotone_temporal_fusion 0 0 0 0 0 (fun _ => none) ∧
      monotone_temporal_fusion 0 0 0 0 0 (fun _ => none) ≤ 1) ∧
    monotone_temporal_fusion 0 0 0 0 0 (fun _ => none) ≤
      monotone_temporal_fusion 1 0 0 0 0 (fun _ => none) ∧
    monotone_temporal_fusion 0 0 0 0 0 (fun _ => none) ≤
      monotone_temporal_fusion 0 1 0 0 0 (fun _ => none) ∧
    monotone_temporal_fusion 0 0 0 0 0 (fun _ => none) ≤
      monotone_temporal_fusion 0 0 1 0 0 (fun _ => none) ∧
    monotone_temporal_fusion 0 0 0 1 0 (fun _ => none) ≤
      monotone_temporal_fusion 0 0 0 0 0 (fun _ => none) ∧
    monotone_temporal_fusion 0 0 0 0 1 (fun _ => none) ≤
      monotone_temporal_fusion 0 0 0 0 0 (fun _ => none) :=
  monotone_temporal_fusion_props 0 1 0 1 0 1 0 1 0 1 (fun _ => none)
    (by decide) (by decide) (by decide) (by decide) (by decide)

/-- Mode cap consulted by the DHQC planner: `n_hard` in HARD mode, `n_max`
otherwise (the `self.n_hard if mode == "HARD" else self.n_max` expression). -/
def modeCap (cfg : DHQCConfig) (mode : String) : ℤ :=
  if mode = "HARD" then cfg.n_hard.getD 6 else cfg.n_max.getD 3

/-- C5: whenever the configured mode cap is at least 1, `plan` returns between
1 and `mode_cap` hops, and `max_candidates = min(fanout_cap_total, 24 if hops>1
else 12)`, hence at most `fanout_cap_total`. -/
theorem DHQCController_plan_caps (cfg : DHQCConfig) (mode : String) (coverage : ℚ)
    (hcap : 1 ≤ modeCap cfg mode) :
    1 ≤ (DHQCController.plan cfg mode coverage).hops ∧
    (DHQCController.plan cfg mode coverage).hops ≤ modeCap cfg mode ∧
    (DHQCController.plan cfg mode coverage).max_candidates =
      min (cfg.fanout_cap_total.getD 250000)
        (if 1 < (DHQCController.plan cfg mode coverage).hops then 24 else 12) ∧
    (DHQCController.plan cfg mode coverage).max_candidates ≤
      cfg.fanout_cap_total.getD 250000 := by
  unfold DHQCController.plan
  unfold modeCap at hcap ⊢
  by_cases hm : mode = "HARD" <;>
    simp only [hm, if_true, if_false, reduceIte] at hcap ⊢ <;>
    split <;> split <;>
    exact ⟨by omega, by omega, by trivial, by omega⟩

theorem DHQCController_plan_caps_witness :
    1 ≤ (DHQCController.plan ⟨some (4/5), some (1/5), some 3, some 6, some 250000⟩
        "INTELLIGENT" (3/10)).hops ∧
    (DHQCController.plan ⟨some (4/5), some (1/5), some 3, some 6, some 250000⟩
        "INTELLIGENT" (3/10)).hops ≤
      modeCap ⟨some (4/5), some (1/5), some 3, some 6, some 250000⟩ "INTELLIGENT" ∧
    (DHQCController.plan ⟨some (4/5), some (1/5), some 3, some 6, some 250000⟩
        "INTELLIGENT" (3/10)).max_candidates =
      min ((⟨some (4/5), some (1/5), some 3, some 6, some 250000⟩ :
          DHQCConfig).fanout_cap_total.getD 250000)
        (if 1 < (DHQCController.plan ⟨some (4/5), some (1/5), some 3, some 6, some 250000⟩
            "INTELLIGENT" (3/10)).hops then 24 else 12) ∧
    (DHQCController.plan ⟨some (4/5), some (1/5), some 3, some 6, some 250000⟩
        "INTELLIGENT" (3/10)).max_candidates ≤
      (⟨some (4/5), some (1/5), some 3, some 6, some 250000⟩ :
          DHQCConfig).fanout_cap_total.getD 250000 :=
  DHQCController_plan_caps ⟨some (4/5), some (1/5), some 3, some 6, some 250000⟩
    "INTELLIGENT" (3/10) (by decide)

theorem duration_nonneg (w : TimeWindow) : 0 ≤ w.duration := le_max_left 0 _

theorem interDur_le_left (a b : TimeWindow) :
    (⟨max a.start b.start, min a.«end» b.«end»⟩ : TimeWindow).duration ≤ a.duration :=
  max_le_max le_rfl (sub_le_sub (min_le_left _ _) (le_max_left _ _))

theorem interDur_le_right (a b : TimeWindow) :
    (⟨max a.start b.start, min a.«end» b.«end»⟩ : TimeWindow).duration ≤ b.duration :=
  max_le_max le_rfl (sub_le_sub (min_le_right _ _) (le_max_right _ _))

theorem duration_eq_zero_le {w : TimeWindow} (h : w.duration = 0) :
    w.«end» - w.start ≤ 0 :=
  max_eq_left_iff.mp h

/-- C7: `window_iou` always lies in [0, 1]; it is 1 on a window of positive
duration compared with itself; it is 0 on disjoint windows and 0 when the union
duration is 0 (two zero-duration windows). -/
theorem window_iou_props (A B : TimeWindow) :
    (0 ≤ window_iou A B ∧ window_iou A B ≤ 1) ∧
    (0 < A.duration → window_iou A A = 1) ∧
    (¬ A.intersects B → window_iou A B = 0) ∧
    (A.duration + B.duration = 0 → window_iou A B = 0) := by
  have hdisj : ¬ A.intersects B → window_iou A B = 0 := by
    intro h
    unfold window_iou TimeWindow.intersection
    rw [if_neg h]
  refine ⟨?_, ?_, hdisj, ?_⟩
  · unfold window_iou TimeWindow.intersection
    by_cases h : A.intersects B
    · rw [if_pos h]
      dsimp only
      set i : TimeWindow := ⟨max A.start B.start, min A.«end» B.«end»⟩ with hi
      by_cases hu : A.duration + B.duration - i.duration ≤ 0
      · rw [if_pos hu]; norm_num
      · rw [if_neg hu]
        push_neg at hu
        constructor
        · exact div_nonneg (duration_nonneg i) (le_of_lt hu)
        · rw [div_le_one hu]
          have h1 := interDur_le_left A B
          have h2 := interDur_le_right A B
          rw [← hi] at h1 h2
          have h3 := duration_nonneg i
          linarith
    · rw [if_neg h]; norm_num
  · intro hA
    have hstart : A.start < A.«end» := by
      by_contra hc
      push_neg at hc
      have : A.duration = 0 := by
        unfold TimeWindow.duration
        exact max_eq_left (by linarith)
      rw [this] at hA
      exact lt_irrefl 0 hA
    have hint : A.intersects A := by
      unfold TimeWindow.intersects
      push_neg
      exact ⟨hstart, hstart⟩
    unfold window_iou TimeWindow.intersection
    rw [if_pos hint]
    dsimp only
    rw [max_self, min_self]
    have hAeta : (⟨A.start, A.«end»⟩ : TimeWindow) = A := rfl
    rw [hAeta]
    have hu : ¬(A.duration + A.duration - A.duration ≤ 0) := by
      intro hc
      have : A.duration ≤ 0 := by linarith
      linarith
    rw [if_neg hu]
    have : A.duration + A.duration - A.duration = A.duration := by ring
    rw [this]
    exact div_self (ne_of_gt hA)
  · intro hsum
    apply hdisj
    intro hint
    have hA0 := duration_nonneg A
    have hB0 := duration_nonneg B
    have hA : A.duration = 0 := by linarith
    have hB : B.duration = 0 := by linarith
    have hA' := duration_eq_zero_le hA
    have hB' := duration_eq_zero_le hB
    unfold TimeWindow.intersects at hint
    push_neg at hint
    linarith [hint.1, hint.2]

theorem window_iou_props_witness :
    ((0 : ℚ) ≤ window_iou ⟨0, 2⟩ ⟨3, 4⟩ ∧ window_iou ⟨0, 2⟩ ⟨3, 4⟩ ≤ 1) ∧
    window_iou ⟨0, 2⟩ ⟨0, 2⟩ = 1 ∧
    window_iou ⟨0, 2⟩ ⟨3, 4⟩ = 0 ∧
    window_iou ⟨5, 5⟩ ⟨5, 5⟩ = 0 := by
  refine ⟨(window_iou_props ⟨0, 2⟩ ⟨3, 4⟩).1, ?_, ?_, ?_⟩
  · exact (window_iou_props ⟨0, 2⟩ ⟨0, 2⟩).2.1
      (by simp [TimeWindow.duration, lt_max_iff, zero_lt_two])
  · exact (window_iou_props ⟨0, 2⟩ ⟨3, 4⟩).2.2.1 (by decide)
  · exact (window_iou_props ⟨5, 5⟩ ⟨5, 5⟩).2.2.2 (by simp [TimeWindow.duration])

theorem intelligent_decay_pos (c q : TimeWindow) : 0 < intelligent_decay c q := by
  unfold intelligent_decay
  split
  · exact one_pos
  · dsimp only
    have hgap : 0 ≤ min |c.start - q.«end»| |q.start - c.«end»| :=
      le_min (abs_nonneg _) (abs_nonneg _)
    have hdays : 0 ≤ min |c.start - q.«end»| |q.start - c.«end»| / 86400 :=
      div_nonneg hgap (by norm_num)
    have hpos : 0 < 1 / (1 + min |c.start - q.«end»| |q.start - c.«end»| / 86400) :=
      one_div_pos.mpr (by linarith)
    exact lt_of_lt_of_le hpos (le_max_right 0 _)

theorem intelligent_decay_of_intersects {c q : TimeWindow} (h : c.intersects q) :
    intelligent_decay c q = 1 := by
  unfold intelligent_decay
  rw [if_pos h]


theorem filterMap_guard {α β : Type} (p : α → Prop) [DecidablePred p] (g : α → β) (l : List α) :
    (l.filterMap (fun a => if p a then some (a, g a) else none)) =
      (l.filter (fun a => decide (p a))).map (fun a => (a, g a)) := by
  induction l with
  | nil => rfl
  | cons x t ih =>
    by_cases h : p x
    · simp [List.filterMap_cons, List.filter_cons, h, ih]
    · simp [List.filterMap_cons, List.filter_cons, h, ih]

theorem filterMap_someFn {α β : Type} (g : α → β) (l : List α) :
    l.filterMap (fun a => some (g a)) = l.map g := by
  induction l with
  | nil => rfl
  | cons x t ih => simp [List.filterMap_cons, ih]

theorem temporal_filter_hard_eq (cs : List ChunkRecord) (w : TimeWindow) :
    temporal_filter cs w "HARD" =
      List.insertionSort (fun a b => b.2 ≤ a.2)
        ((cs.filter (fun c => decide (hard_mode_pre_mask c.valid_window w))).map
          (fun c => (c, (1 : ℚ)))) := by
  unfold temporal_filter
  have hfun : (fun chunk : ChunkRecord =>
      if ("HARD" : String) = "HARD" then
        (if hard_mode_pre_mask chunk.valid_window w then some (chunk, (1 : ℚ)) else none)
      else
        (let weight := intelligent_decay chunk.valid_window w
         if weight ≤ 0 then none else some (chunk, weight))) =
      (fun chunk : ChunkRecord =>
        if hard_mode_pre_mask chunk.valid_window w then some (chunk, (1 : ℚ)) else none) := by
    funext chunk
    rw [if_pos rfl]
  rw [hfun, filterMap_guard]

theorem temporal_filter_intelligent_eq (cs : List ChunkRecord) (w : TimeWindow) :
    temporal_filter cs w "INTELLIGENT" =
      List.insertionSort (fun a b => b.2 ≤ a.2)
        (cs.map (fun c => (c, intelligent_decay c.valid_window w))) := by
  unfold temporal_filter
  have hfun : (fun chunk : ChunkRecord =>
      if ("INTELLIGENT" : String) = "HARD" then
        (if hard_mode_pre_mask chunk.valid_window w then some (chunk, (1 : ℚ)) else none)
      else
        (let weight := intelligent_decay chunk.valid_window w
         if weight ≤ 0 then none else some (chunk, weight))) =
      (fun chunk : ChunkRecord => some (chunk, intelligent_decay chunk.valid_window w)) := by
    funext chunk
    rw [if_neg (by decide : ¬("INTELLIGENT" : String) = "HARD")]
    exact if_neg (not_le.mpr (intelligent_decay_pos _ _))
  rw [hfun, filterMap_someFn]

/-- C4: in HARD mode `temporal_filter` returns exactly the chunks whose valid
window intersects the query window, each with weight 1; in INTELLIGENT mode it
returns the chunks with positive `intelligent_decay`, weighted by that decay,
an overlapping chunk gets weight 1, and every returned weight is positive. -/
theorem temporal_filter_modes (cs : List ChunkRecord) (w : TimeWindow) :
    (temporal_filter cs w "HARD").Perm
      ((cs.filter (fun c => decide (hard_mode_pre_mask c.valid_window w))).map
        (fun c => (c, (1 : ℚ)))) ∧
    (temporal_filter cs w "INTELLIGENT").Perm
      ((cs.filter (fun c => decide (0 < intelligent_decay c.valid_window w))).map
        (fun c => (c, intelligent_decay c.valid_window w))) ∧
    (∀ p ∈ temporal_filter cs w "INTELLIGENT",
      0 < p.2 ∧ (p.1.valid_window.intersects w → p.2 = 1)) := by
  have hfilter : cs.filter (fun c => decide (0 < intelligent_decay c.valid_window w)) = cs :=
    List.filter_eq_self.mpr (fun c _ => decide_eq_true (intelligent_decay_pos _ _))
  refine ⟨?_, ?_, ?_⟩
  · rw [temporal_filter_hard_eq]
    exact List.perm_insertionSort _ _
  · rw [temporal_filter_intelligent_eq, hfilter]
    exact List.perm_insertionSort _ _
  · intro p hp
    rw [temporal_filter_intelligent_eq] at hp
    have hp' := (List.perm_insertionSort
      (fun a b : ChunkRecord × ℚ => b.2 ≤ a.2) _).mem_iff.mp hp
    obtain ⟨c, _, hc⟩ := List.mem_map.mp hp'
    subst hc
    exact ⟨intelligent_decay_pos _ _, fun hint => intelligent_decay_of_intersects hint⟩

/-- C10: `intelligent_decay` is always strictly positive (1 on overlap,
otherwise `1/(1+gap_days) > 0`), so INTELLIGENT-mode `temporal_filter` never
drops a candidate: it returns every input chunk paired with its decay weight. -/
theorem intelligent_filter_keeps_all :
    (∀ candidate_window query_window : TimeWindow,
      0 < intelligent_decay candidate_window query_window) ∧
    (∀ candidate_window query_window : TimeWindow,
      candidate_window.intersects query_window →
        intelligent_decay candidate_window query_window = 1) ∧
    ∀ (cs : List ChunkRecord) (w : TimeWindow),
      (temporal_filter cs w "INTELLIGENT").Perm
        (cs.map (fun c => (c, intelligent_decay c.valid_window w))) := by
  refine ⟨intelligent_decay_pos, fun _ _ h => intelligent_decay_of_intersects h, ?_⟩
  intro cs w
  rw [temporal_filter_intelligent_eq]
  exact List.perm_insertionSort _ _


theorem lookupAssoc_cons {K V : Type} [DecidableEq K] (e : K × V) (t : List (K × V)) (key : K) :
    lookupAssoc (e :: t) key = if e.1 = key then some e.2 else lookupAssoc t key := by
  cases e; rfl

theorem updateAssoc_cons {K V : Type} [DecidableEq K] (e : K × V) (t : List (K × V))
    (key : K) (value : V) :
    updateAssoc (e :: t) key value =
      if e.1 = key then (e.1, value) :: t else e :: updateAssoc t key value := by
  cases e; rfl

theorem lookupAssoc_append_single {K V : Type} [DecidableEq K]
    (b : List (K × V)) (k0 k : K) (v : V) :
    lookupAssoc (b ++ [(k0, v)]) k =
      match lookupAssoc b k with
      | some w => some w
      | none => if k0 = k then some v else none := by
  induction b with
  | nil => rfl
  | cons e t ih =>
    rw [List.cons_append, lookupAssoc_cons, lookupAssoc_cons]
    by_cases h : e.1 = k
    · rw [if_pos h, if_pos h]
    · rw [if_neg h, if_neg h, ih]

theorem lookupAssoc_update_self {K V : Type} [DecidableEq K]
    (b : List (K × V)) (k : K) (v w : V) (h : lookupAssoc b k = some w) :
    lookupAssoc (updateAssoc b k v) k = some v := by
  induction b with
  | nil => simp [lookupAssoc] at h
  | cons e t ih =>
    rw [lookupAssoc_cons] at h
    rw [updateAssoc_cons]
    by_cases he : e.1 = k
    · rw [if_pos he, lookupAssoc_cons, if_pos he]
    · rw [if_neg he] at h
      rw [if_neg he, lookupAssoc_cons, if_neg he]
      exact ih h

theorem lookupAssoc_update_ne {K V : Type} [DecidableEq K]
    (b : List (K × V)) (k0 k : K) (v : V) (h : k0 ≠ k) :
    lookupAssoc (updateAssoc b k0 v) k = lookupAssoc b k := by
  induction b with
  | nil => rfl
  | cons e t ih =>
    rw [updateAssoc_cons]
    by_cases he : e.1 = k0
    · rw [if_pos he, lookupAssoc_cons, lookupAssoc_cons]
      simp only []
      rw [if_neg (he ▸ h), if_neg (he ▸ h)]
    · rw [if_neg he, lookupAssoc_cons, lookupAssoc_cons, ih]

theorem lookupAssoc_mem_values {K V : Type} [DecidableEq K]
    {b : List (K × V)} {k : K} {v : V} (h : lookupAssoc b k = some v) :
    v ∈ b.map (·.2) := by
  induction b with
  | nil => simp [lookupAssoc] at h
  | cons e t ih =>
    rw [lookupAssoc_cons] at h
    by_cases he : e.1 = k
    · rw [if_pos he] at h
      cases h
      simp
    · rw [if_neg he] at h
      simp [ih h]

theorem reduceStep_of_none {b : List ((List Char × ℚ) × ChronoPassage)} {p : ChronoPassage}
    (h : lookupAssoc b (passageKey p) = none) :
    reduceStep b p = b ++ [(passageKey p, p)] := by
  unfold reduceStep
  rw [h]

theorem reduceStep_of_replace {b : List ((List Char × ℚ) × ChronoPassage)} {p cur : ChronoPassage}
    (h : lookupAssoc b (passageKey p) = some cur)
    (hc : cur.authority < p.authority ∨ cur.score < p.score) :
    reduceStep b p = updateAssoc b (passageKey p) p := by
  unfold reduceStep
  rw [h]
  exact if_pos hc

theorem reduceStep_of_keep {b : List ((List Char × ℚ) × ChronoPassage)} {p cur : ChronoPassage}
    (h : lookupAssoc b (passageKey p) = some cur)
    (hc : ¬(cur.authority < p.authority ∨ cur.score < p.score)) :
    reduceStep b p = b := by
  unfold reduceStep
  rw [h]
  exact if_neg hc

theorem lookup_reduceStep_ne (b : List ((List Char × ℚ) × ChronoPassage))
    (p : ChronoPassage) (k : List Char × ℚ) (h : passageKey p ≠ k) :
    lookupAssoc (reduceStep b p) k = lookupAssoc b k := by
  cases hl : lookupAssoc b (passageKey p) with
  | none =>
    rw [reduceStep_of_none hl, lookupAssoc_append_single, if_neg h]
    cases lookupAssoc b k <;> rfl
  | some current =>
    by_cases hc : current.authority < p.authority ∨ current.score < p.score
    · rw [reduceStep_of_replace hl hc]
      exact lookupAssoc_update_ne b (passageKey p) k p h
    · rw [reduceStep_of_keep hl hc]

theorem reduce_fold_keeps (M : ChronoPassage) :
    ∀ (l : List ChronoPassage) (b : List ((List Char × ℚ) × ChronoPassage)),
      (∀ p ∈ l, passageKey p = passageKey M →
        (p.authority < M.authority ∧ p.score ≤ M.score) ∨ p = M) →
      (lookupAssoc b (passageKey M) = some M ∨
        (M ∈ l ∧ ∀ v, lookupAssoc b (passageKey M) = some v →
          v.authority < M.authority ∧ v.score ≤ M.score)) →
      lookupAssoc (l.foldl reduceStep b) (passageKey M) = some M := by
  intro l
  induction l with
  | nil =>
    intro b _ hb
    rcases hb with hb | ⟨hmem, _⟩
    · exact hb
    · cases hmem
  | cons p t ih =>
    intro b hdom hb
    rw [List.foldl_cons]
    have hdomt : ∀ q ∈ t, passageKey q = passageKey M →
        (q.authority < M.authority ∧ q.score ≤ M.score) ∨ q = M :=
      fun q hq => hdom q (List.mem_cons_of_mem p hq)
    by_cases hpM : p = M
    · subst hpM
      refine ih _ hdomt (Or.inl ?_)
      rcases hb with hsome | ⟨_, hdomb⟩
      · rw [reduceStep_of_keep hsome (by simp)]
        exact hsome
      · cases hl : lookupAssoc b (passageKey p) with
        | none =>
          rw [reduceStep_of_none hl, lookupAssoc_append_single, hl, if_pos rfl]
        | some v =>
          have hv := hdomb v hl
          rw [reduceStep_of_replace hl (Or.inl hv.1)]
          exact lookupAssoc_update_self b (passageKey p) p v hl
    · rcases hb with hsome | ⟨hmem, hdomb⟩
      · refine ih _ hdomt (Or.inl ?_)
        by_cases hk : passageKey p = passageKey M
        · rcases hdom p (List.mem_cons_self p t) hk with ⟨ha, hs⟩ | he
          · have hsome' : lookupAssoc b (passageKey p) = some M := by rw [hk]; exact hsome
            rw [reduceStep_of_keep hsome'
              (by push_neg; exact ⟨le_of_lt ha, hs⟩)]
            exact hsome
          · exact absurd he hpM
        · rw [lookup_reduceStep_ne b p _ hk]
          exact hsome
      · have hmt : M ∈ t := by
          rcases List.mem_cons.mp hmem with he | ht
          · exact absurd he.symm hpM
          · exact ht
        refine ih _ hdomt (Or.inr ⟨hmt, ?_⟩)
        intro v hv
        by_cases hk : passageKey p = passageKey M
        · rcases hdom p (List.mem_cons_self p t) hk with ⟨ha, hs⟩ | he
          · cases hl : lookupAssoc b (passageKey p) with
            | none =>
              rw [reduceStep_of_none hl, lookupAssoc_append_single] at hv
              cases hl2 : lookupAssoc b (passageKey M) with
              | none =>
                rw [hl2, if_pos hk] at hv
                cases hv
                exact ⟨ha, hs⟩
              | some w =>
                rw [hl2] at hv
                cases hv
                exact hdomb _ hl2
            | some current =>
              by_cases hc : current.authority < p.authority ∨ current.score < p.score
              · rw [reduceStep_of_replace hl hc, ← hk,
                  lookupAssoc_update_self b (passageKey p) p current hl] at hv
                cases hv
                exact ⟨ha, hs⟩
              · rw [reduceStep_of_keep hl hc] at hv
                exact hdomb _ hv
          · exact absurd he hpM
        · rw [lookup_reduceStep_ne b p _ hk] at hv
          exact hdomb _ hv

/-- C2 (amended): an entry whose authority is strictly greatest in its
duplicate-key group and whose score is at least every other score in the group
is never dropped by `reduce_passages`. -/
theorem reduce_passages_keeps_dominant (passages : List ChronoPassage)
    (M : ChronoPassage) (hM : M ∈ passages)
    (hdom : ∀ p ∈ passages, passageKey p = passageKey M →
      (p.authority < M.authority ∧ p.score ≤ M.score) ∨ p = M) :
    M ∈ reduce_passages passages := by
  unfold reduce_passages
  have h := reduce_fold_keeps M passages [] hdom
    (Or.inr ⟨hM, by intro v hv; cases hv⟩)
  exact (List.perm_insertionSort reduceKeyLE _).mem_iff.mpr
    (lookupAssoc_mem_values h)

/-- Passage with the strictly highest authority of its duplicate-key group. -/
def cpA : ChronoPassage :=
  ⟨"c1", "d1", "x", "u1", ⟨0, 1⟩, mkRat 9 10, mkRat 1 10, [], [], [], none⟩

/-- Lower-authority, higher-score passage sharing the duplicate key of `cpA`. -/
def cpB : ChronoPassage :=
  ⟨"c2", "d2", "x", "u2", ⟨0, 1⟩, mkRat 1 2, mkRat 9 10, [], [], [], none⟩

/-- C2 counterexample: `cpA` has the strictly highest authority of its
duplicate-key group, yet `reduce_passages` silently drops it because the later
`cpB` has a strictly higher score. -/
theorem reduce_passages_drops_top_authority :
    passageKey cpB = passageKey cpA ∧
    cpB.authority < cpA.authority ∧
    (∀ p ∈ [cpA, cpB], p.authority ≤ cpA.authority) ∧
    cpA ∉ reduce_passages [cpA, cpB] := by decide

theorem reduce_passages_keeps_dominant_witness :
    cpA ∈ reduce_passages [cpA, ⟨"c2", "d2", "x", "u2", ⟨0, 1⟩, mkRat 1 2, mkRat 1 10,
      [], [], [], none⟩] :=
  reduce_passages_keeps_dominant _ cpA (by decide) (by decide)

/-- C8 (amended): `parse_date` always returns a UTC timestamp (it never
raises): the first ISO-shaped match is used when it parses as a valid
date/time; otherwise (including when that first match is an invalid date) the
whole stripped text is tried against the month-name formats; otherwise the
epoch fallback 1970-01-01 (timestamp 0) is returned. -/
theorem parse_date_fallback (s : String) :
    (∀ m ts, isoSearch (pyStrip s.data) = some m → isoToTs m = some ts →
      parse_date s = ((ts : ℤ) : ℚ)) ∧
    ((isoSearch (pyStrip s.data) = none ∨
        (∃ m, isoSearch (pyStrip s.data) = some m ∧ isoToTs m = none)) →
      ∀ d, monthToTs (pyStrip s.data) = some d → parse_date s = ((d : ℤ) : ℚ)) ∧
    ((isoSearch (pyStrip s.data) = none ∨
        (∃ m, isoSearch (pyStrip s.data) = some m ∧ isoToTs m = none)) →
      monthToTs (pyStrip s.data) = none → parse_date s = 0) := by
  refine ⟨?_, ?_, ?_⟩
  · intro m ts h1 h2
    simp only [parse_date, parseDateZ, h1, h2]
  · rintro (h1 | ⟨m, h1, h2⟩) d hd
    · simp only [parse_date, parseDateZ, h1, hd, Option.getD_some]
    · simp only [parse_date, parseDateZ, h1, h2, hd, Option.getD_some]
  · rintro (h1 | ⟨m, h1, h2⟩) hm
    · simp only [parse_date, parseDateZ, h1, hm, Option.getD_none, Int.cast_zero]
    · simp only [parse_date, parseDateZ, h1, h2, hm, Option.getD_none, Int.cast_zero]

/-- C8 counterexample: the text contains the valid ISO date 2020-01-01, but the
leftmost ISO-shaped match is the invalid 9999-99-99, so `parse_date` falls back
to the epoch instead of extracting the ISO date present in the text. -/
theorem parse_date_first_match_counterexample :
    "2020-01-01".data <:+: "9999-99-99 2020-01-01".data ∧
    (∃ m, tryIsoAt "2020-01-01".data = some m ∧ isoToTs m = some 1577836800) ∧
    parse_date "9999-99-99 2020-01-01" = 0 ∧
    (0 : ℚ) ≠ ((1577836800 : ℤ) : ℚ) := by
  refine ⟨by decide, ⟨⟨2020, 1, 1, none⟩, by decide, by decide⟩, by decide, by decide⟩

theorem parse_date_fallback_witness :
    parse_date "2021-01-17" = ((1610841600 : ℤ) : ℚ) :=
  (parse_date_fallback "2021-01-17").1 ⟨2021, 1, 17, none⟩ 1610841600
    (by decide) (by decide)

/-- First ingest: `external_id` ext-1, transaction window [10, 100). -/
def c1Args1 : IngestArgs :=
  { text := "v1", uri := "u", valid_window := ⟨0, 100⟩, tx_window := some ⟨10, 100⟩,
    authority := 1, metadata := [], doc_id := some "d", external_id := some "ext-1",
    version_id := none, facets := [], entities := [], tags := none, units := [],
    time_granularity := none, time_sigma_days := none }

/-- Second ingest: same `external_id`, transaction window starting later (50). -/
def c1Args2 : IngestArgs :=
  { c1Args1 with text := "v2", tx_window := some ⟨50, 200⟩, version_id := some "v2" }

/-- Store state after the first ingest into an empty store. -/
def c1Step1 : ChunkRecord × PVDB := ingest_document (fun _ => 0) ⟨[], [], 1, false⟩ c1Args1

/-- Store state after the second ingest. -/
def c1Step2 : ChunkRecord × PVDB := ingest_document (fun _ => 0) c1Step1.2 c1Args2

/-- C1: evaluation of `ingest_document` at the failing input.  Two ingests
share `external_id` ext-1 and the second transaction window starts later (50
versus 10), yet the first chunk remains stored with its original `tx_window`
[10, 100): the source performs no lineage closure (the claimed advance of the
predecessor `tx_window.end` to 50 never happens, and no `version_id` is carried
anywhere).  Both chunks do remain stored under distinct ids. -/
theorem ingest_document_no_lineage_closure :
    c1Step1.1.external_id = some "ext-1" ∧
    c1Step2.1.external_id = some "ext-1" ∧
    c1Step1.1.tx_window = some ⟨10, 100⟩ ∧
    c1Step2.1.tx_window = some ⟨50, 200⟩ ∧
    (10 : ℚ) < 50 ∧
    lookupAssoc c1Step2.2.chunks c1Step1.1.chunk_id = some c1Step1.1 ∧
    c1Step1.1.tx_window ≠ some ⟨10, 50⟩ ∧
    c1Step1.1.chunk_id ≠ c1Step2.1.chunk_id ∧
    lookupAssoc c1Step2.2.chunks c1Step2.1.chunk_id = some c1Step2.1 := by decide

/-- Accumulator form of the decimal value of a digit string. -/
def valAux (acc : ℕ) (l : List Char) : ℕ :=
  l.foldl (fun a c => 10 * a + digitVal c) acc

theorem valAux_append (acc : ℕ) (xs ys : List Char) :
    valAux acc (xs ++ ys) = valAux (valAux acc xs) ys :=
  List.foldl_append _ _ xs ys

theorem digitChar_isDigit {k : ℕ} (h : k < 10) :
    (Char.ofNat ('0'.toNat + k)).isDigit = true := by
  interval_cases k <;> decide

theorem digitChar_val {k : ℕ} (h : k < 10) :
    digitVal (Char.ofNat ('0'.toNat + k)) = k := by
  interval_cases k <;> decide

theorem natDigitsAux_isDigit :
    ∀ (fuel n : ℕ), ∀ c ∈ natDigitsAux fuel n, c.isDigit = true := by
  intro fuel
  induction fuel with
  | zero => intro n c hc; cases hc
  | succ f ih =>
    intro n c hc
    unfold natDigitsAux at hc
    by_cases hn : n = 0
    · rw [if_pos hn] at hc; cases hc
    · rw [if_neg hn] at hc
      rcases List.mem_append.mp hc with h | h
      · exact ih _ c h
      · rcases List.mem_singleton.mp h with rfl
        exact digitChar_isDigit (Nat.mod_lt _ (by norm_num))

theorem natDigitsAux_ne_nil {fuel n : ℕ} (hn : n ≠ 0) (hf : fuel ≠ 0) :
    natDigitsAux fuel n ≠ [] := by
  cases fuel with
  | zero => exact absurd rfl hf
  | succ f =>
    unfold natDigitsAux
    rw [if_neg hn]
    simp

theorem natDigitsAux_val :
    ∀ (fuel n acc : ℕ), n ≤ fuel →
      valAux acc (natDigitsAux fuel n) = acc * 10 ^ (natDigitsAux fuel n).length + n := by
  intro fuel
  induction fuel with
  | zero =>
    intro n acc h
    interval_cases n
    simp [natDigitsAux, valAux]
  | succ f ih =>
    intro n acc h
    unfold natDigitsAux
    by_cases hn : n = 0
    · rw [if_pos hn]
      simp [valAux, hn]
    · rw [if_neg hn]
      have hdiv : n / 10 ≤ f := by
        have := Nat.div_lt_self (Nat.pos_of_ne_zero hn) (by norm_num : (1:ℕ) < 10)
        omega
      rw [valAux_append, ih (n / 10) acc hdiv]
      simp only [valAux, List.foldl_cons, List.foldl_nil, List.length_append,
        List.length_singleton]
      rw [digitChar_val (Nat.mod_lt _ (by norm_num))]
      rw [pow_succ]
      have := Nat.div_add_mod n 10
      ring_nf
      omega

theorem natDigits_isDigit (n : ℕ) : ∀ c ∈ natDigits n, c.isDigit = true := by
  intro c hc
  unfold natDigits at hc
  by_cases hn : n = 0
  · rw [if_pos hn] at hc
    rcases List.mem_singleton.mp hc with rfl
    decide
  · rw [if_neg hn] at hc
    exact natDigitsAux_isDigit n n c hc

theorem natDigits_ne_nil (n : ℕ) : natDigits n ≠ [] := by
  unfold natDigits
  by_cases hn : n = 0
  · rw [if_pos hn]; simp
  · rw [if_neg hn]
    exact natDigitsAux_ne_nil hn hn

theorem natDigits_val (n : ℕ) : valAux 0 (natDigits n) = n := by
  unfold natDigits
  by_cases hn : n = 0
  · rw [if_pos hn, hn]; decide
  · rw [if_neg hn, natDigitsAux_val n n 0 le_rfl]
    simp

theorem valAux_replicate_zero (k : ℕ) : valAux 0 (List.replicate k '0') = 0 := by
  induction k with
  | zero => rfl
  | succ m ih =>
    rw [List.replicate_succ]
    show valAux (10 * 0 + digitVal '0') (List.replicate m '0') = 0
    simpa using ih

theorem pad5_isDigit (n : ℕ) : ∀ c ∈ pad5 n, c.isDigit = true := by
  intro c hc
  unfold pad5 at hc
  rcases List.mem_append.mp hc with h | h
  · rcases List.eq_of_mem_replicate h with rfl
    decide
  · exact natDigits_isDigit n c h

theorem pad5_ne_nil (n : ℕ) : pad5 n ≠ [] := by
  unfold pad5
  intro h
  exact natDigits_ne_nil n (List.append_eq_nil.mp h).2

theorem pad5_val (n : ℕ) : valAux 0 (pad5 n) = n := by
  unfold pad5
  rw [valAux_append, valAux_replicate_zero, natDigits_val]

theorem isDigit_not_ws {c : Char} (h : c.isDigit = true) : isPyWs c = false := by
  by_contra hw
  have hw' : isPyWs c = true := by
    cases hx : isPyWs c
    · exact absurd hx hw
    · rfl
  simp only [isPyWs, Bool.or_eq_true, decide_eq_true_eq] at hw'
  rcases hw' with ((((rfl | rfl) | rfl) | rfl) | rfl) | rfl <;> exact absurd h (by decide)

theorem isDigit_ne_colon {c : Char} (h : c.isDigit = true) : c ≠ ':' := by
  rintro rfl; exact absurd h (by decide)

theorem isDigit_ne_minus {c : Char} (h : c.isDigit = true) : c ≠ '-' := by
  rintro rfl; exact absurd h (by decide)

theorem isDigit_ne_plus {c : Char} (h : c.isDigit = true) : c ≠ '+' := by
  rintro rfl; exact absurd h (by decide)

theorem dropWhile_eq_self_of {α : Type} (p : α → Bool) (l : List α)
    (h : ∀ c ∈ l, p c = false) : l.dropWhile p = l := by
  cases l with
  | nil => rfl
  | cons a t =>
    rw [List.dropWhile_cons, if_neg]
    rw [h a (List.mem_cons_self a t)]
    simp

theorem pyStrip_of_no_ws {l : List Char} (h : ∀ c ∈ l, isPyWs c = false) :
    pyStrip l = l := by
  unfold pyStrip
  rw [dropWhile_eq_self_of isPyWs l h,
    dropWhile_eq_self_of isPyWs l.reverse (fun c hc => h c (List.mem_reverse.mp hc)),
    List.reverse_reverse]

theorem takeWhile_append_stop {α : Type} (p : α → Bool) (as : List α) (b : α) (bs : List α)
    (h : ∀ c ∈ as, p c = true) (hb : p b = false) :
    (as ++ b :: bs).takeWhile p = as := by
  induction as with
  | nil =>
    rw [List.nil_append, List.takeWhile_cons, hb]
    exact if_neg Bool.false_ne_true
  | cons a t ih =>
    rw [List.cons_append, List.takeWhile_cons, h a (List.mem_cons_self a t), if_pos rfl,
      ih (fun c hc => h c (List.mem_cons_of_mem a hc))]

theorem lastColonSeg_append (xs ys : List Char) (h : ∀ c ∈ ys, c ≠ ':') :
    lastColonSeg (xs ++ ':' :: ys) = ys := by
  unfold lastColonSeg
  rw [List.reverse_append, List.reverse_cons, List.append_assoc, List.singleton_append]
  rw [takeWhile_append_stop _ ys.reverse ':' xs.reverse
    (fun c hc => decide_eq_true (h c (List.mem_reverse.mp hc))) (by decide)]
  exact List.reverse_reverse ys

theorem pyIntParse_digits (l : List Char) (hne : l ≠ [])
    (hdig : ∀ c ∈ l, c.isDigit = true) :
    pyIntParse l = some ((valAux 0 l : ℕ) : ℤ) := by
  unfold pyIntParse
  rw [pyStrip_of_no_ws (fun c hc => isDigit_not_ws (hdig c hc))]
  have hval : digitsVal? l = some (valAux 0 l) := by
    unfold digitsVal?
    rw [if_pos ⟨hne, List.all_eq_true.mpr (fun c hc => hdig c hc)⟩]
    rfl
  rcases List.exists_cons_of_ne_nil hne with ⟨c0, cs, rfl⟩
  have hc0 := hdig c0 (List.mem_cons_self c0 cs)
  split
  · rename_i ds heq
    cases heq
    exact absurd rfl (isDigit_ne_minus hc0)
  · rename_i ds heq
    cases heq
    exact absurd rfl (isDigit_ne_plus hc0)
  · rw [hval]
    rfl

theorem next_chunk_id_data (doc_id : String) (c : ℕ) :
    (next_chunk_id doc_id c).data =
      (doc_id.data ++ [':', 'c', 'h', 'u', 'n', 'k']) ++ ':' :: pad5 c := by
  unfold next_chunk_id
  rw [String.data_append, String.data_append]
  rw [show (":chunk:" : String).data = [':', 'c', 'h', 'u', 'n', 'k', ':'] from rfl]
  rw [show (String.mk (pad5 c)).data = pad5 c from rfl]
  simp [List.append_assoc]

theorem parse_next_chunk_id (doc_id : String) (c : ℕ) :
    pyIntParse (lastColonSeg (next_chunk_id doc_id c).data) = some (c : ℤ) := by
  rw [next_chunk_id_data,
    lastColonSeg_append _ _ (fun ch hc => isDigit_ne_colon (pad5_isDigit c ch hc)),
    pyIntParse_digits _ (pad5_ne_nil c) (pad5_isDigit c), pad5_val]

theorem lookupAssoc_none_iff {K V : Type} [DecidableEq K] (b : List (K × V)) (k : K) :
    lookupAssoc b k = none ↔ k ∉ b.map (·.1) := by
  induction b with
  | nil => simp [lookupAssoc]
  | cons e t ih =>
    rw [lookupAssoc_cons]
    by_cases he : e.1 = k
    · simp [he]
    · simp only [if_neg he, ih, List.map_cons, List.mem_cons]
      constructor
      · intro hk
        rintro (hk2 | hk2)
        · exact he hk2.symm
        · exact hk hk2
      · intro hk hk2
        exact hk (Or.inr hk2)

theorem updateAssoc_keys {K V : Type} [DecidableEq K] (b : List (K × V)) (k : K) (v : V) :
    (updateAssoc b k v).map (·.1) = b.map (·.1) := by
  induction b with
  | nil => rfl
  | cons e t ih =>
    rw [updateAssoc_cons]
    by_cases he : e.1 = k
    · rw [if_pos he]; simp
    · rw [if_neg he, List.map_cons, List.map_cons, ih]

theorem dictInsert_of_none {K V : Type} [DecidableEq K] {b : List (K × V)} {k : K} (v : V)
    (h : lookupAssoc b k = none) : dictInsert b k v = b ++ [(k, v)] := by
  unfold dictInsert
  rw [h]

theorem dictInsert_keys_sub {K V : Type} [DecidableEq K] (b : List (K × V)) (k : K) (v : V) :
    ∀ id ∈ (dictInsert b k v).map (·.1), id ∈ b.map (·.1) ∨ id = k := by
  intro id hid
  unfold dictInsert at hid
  cases hl : lookupAssoc b k with
  | some w =>
    rw [hl] at hid
    rw [updateAssoc_keys] at hid
    exact Or.inl hid
  | none =>
    rw [hl] at hid
    rw [List.map_append] at hid
    rcases List.mem_append.mp hid with h1 | h1
    · exact Or.inl h1
    · exact Or.inr (List.mem_singleton.mp h1)

theorem dictInsert_nodup {K V : Type} [DecidableEq K] {b : List (K × V)} {k : K} {v : V}
    (h : (b.map (·.1)).Nodup) : ((dictInsert b k v).map (·.1)).Nodup := by
  unfold dictInsert
  cases hl : lookupAssoc b k with
  | some w => rw [updateAssoc_keys]; exact h
  | none =>
    rw [List.map_append]
    rw [List.nodup_append]
    refine ⟨h, List.nodup_singleton _, ?_⟩
    intro a ha hb
    rcases List.mem_singleton.mp hb with rfl
    exact (lookupAssoc_none_iff b a).mp hl ha

/-- Invariant of the chunk store claimed by C9: the stored chunk ids are
pairwise distinct, and every stored id whose numeric suffix parses is strictly
below the allocation counter (so the next allocation cannot collide). -/
def PVDBInv (db : PVDB) : Prop :=
  (db.chunks.map (·.1)).Nodup ∧
  ∀ id ∈ db.chunks.map (·.1), ∀ n : ℤ,
    pyIntParse (lastColonSeg id.data) = some n → n < (db.counter : ℤ)

theorem bump_counter_ge (counter : ℕ) (id : String) :
    counter ≤ bump_counter counter id := by
  unfold bump_counter
  cases pyIntParse (lastColonSeg id.data) with
  | none => exact le_rfl
  | some n => exact le_max_left _ _

theorem bump_counter_gt {counter : ℕ} {id : String} {n : ℤ}
    (h : pyIntParse (lastColonSeg id.data) = some n) :
    n < (bump_counter counter id : ℤ) := by
  unfold bump_counter
  rw [h]
  show n < ((max counter (n + 1).toNat : ℕ) : ℤ)
  omega

theorem loadPVDB_inv (loadedChunks : List ChunkRecord) (loadedDocs : List DocumentRecord) :
    PVDBInv (loadPVDB loadedChunks loadedDocs) := by
  have hfold : ∀ (cs : List ChunkRecord) (db : PVDB), PVDBInv db →
      PVDBInv (cs.foldl
        (fun (db : PVDB) ch =>
          { db with
            chunks := dictInsert db.chunks ch.chunk_id ch
            counter := bump_counter db.counter ch.chunk_id }) db) := by
    intro cs
    induction cs with
    | nil => intro db h; exact h
    | cons ch t ih =>
      intro db h
      rw [List.foldl_cons]
      refine ih _ ⟨dictInsert_nodup h.1, ?_⟩
      intro id hid n hn
      rcases dictInsert_keys_sub db.chunks ch.chunk_id ch id hid with h1 | h1
      · calc n < (db.counter : ℤ) := h.2 id h1 n hn
          _ ≤ _ := by exact_mod_cast bump_counter_ge db.counter ch.chunk_id
      · subst h1
        exact bump_counter_gt hn
  unfold loadPVDB
  have h1 := hfold loadedChunks ⟨[], [], 1, false⟩ ⟨List.nodup_nil, by simp⟩
  exact ⟨h1.1, h1.2⟩

theorem ingest_document_chunks_eq (hashAbs : String → ℕ) (db : PVDB) (args : IngestArgs)
    (hinv : PVDBInv db) :
    (∀ e ∈ db.chunks, e.1 ≠ (ingest_document hashAbs db args).1.chunk_id) ∧
    (ingest_document hashAbs db args).2.chunks =
      db.chunks ++ [((ingest_document hashAbs db args).1.chunk_id,
        (ingest_document hashAbs db args).1)] := by
  have hfresh : ∀ e ∈ db.chunks, e.1 ≠
      next_chunk_id (args.doc_id.getD (default_doc_id hashAbs args.uri)) db.counter := by
    intro e he heq
    have hmem : e.1 ∈ db.chunks.map (·.1) := List.mem_map.mpr ⟨e, he, rfl⟩
    have := hinv.2 e.1 hmem (db.counter : ℤ) (by rw [heq]; exact parse_next_chunk_id _ _)
    exact lt_irrefl _ this
  constructor
  · intro e he
    exact hfresh e he
  · show dictInsert db.chunks _ _ = _
    rw [dictInsert_of_none]
    · rfl
    · rw [lookupAssoc_none_iff]
      intro hmem
      rcases List.mem_map.mp hmem with ⟨e, he, hkey⟩
      exact hfresh e he hkey

/-- C9: the store keeps chunk ids pairwise distinct and never rewrites an
existing chunk id.  Loading any snapshot establishes the invariant (the counter
is bumped above every parsed numeric suffix), and on a store satisfying the
invariant each `ingest_document` allocates a chunk id different from every
stored one, strictly increases the counter, keeps every existing entry
unchanged, stores the new chunk under the fresh id, and re-establishes the
invariant. -/
theorem pvdb_chunk_ids_fresh_and_distinct :
    (∀ (loadedChunks : List ChunkRecord) (loadedDocs : List DocumentRecord),
      PVDBInv (loadPVDB loadedChunks loadedDocs)) ∧
    ∀ (hashAbs : String → ℕ) (db : PVDB) (args : IngestArgs), PVDBInv db →
      (∀ e ∈ db.chunks, e.1 ≠ (ingest_document hashAbs db args).1.chunk_id) ∧
      (ingest_document hashAbs db args).2.counter = db.counter + 1 ∧
      (∀ e ∈ db.chunks, e ∈ (ingest_document hashAbs db args).2.chunks) ∧
      lookupAssoc (ingest_document hashAbs db args).2.chunks
        (ingest_document hashAbs db args).1.chunk_id =
          some (ingest_document hashAbs db args).1 ∧
      PVDBInv (ingest_document hashAbs db args).2 := by
  refine ⟨loadPVDB_inv, ?_⟩
  intro hashAbs db args hinv
  obtain ⟨hfresh, hchunks⟩ := ingest_document_chunks_eq hashAbs db args hinv
  have hcounter : (ingest_document hashAbs db args).2.counter = db.counter + 1 := rfl
  have hnone : lookupAssoc db.chunks (ingest_document hashAbs db args).1.chunk_id = none := by
    rw [lookupAssoc_none_iff]
    intro hmem
    rcases List.mem_map.mp hmem with ⟨e, he, hkey⟩
    exact hfresh e he hkey
  refine ⟨hfresh, hcounter, ?_, ?_, ?_, ?_⟩
  · intro e he
    rw [hchunks]
    exact List.mem_append_left _ he
  · rw [hchunks, lookupAssoc_append_single, hnone, if_pos rfl]
  · rw [hchunks, List.map_append, List.nodup_append]
    refine ⟨hinv.1, List.nodup_singleton _, ?_⟩
    intro a ha hb
    rcases List.mem_singleton.mp hb with rfl
    exact (lookupAssoc_none_iff db.chunks _).mp hnone ha
  · intro id hid n hn
    rw [hchunks, List.map_append] at hid
    rw [hcounter]
    rcases List.mem_append.mp hid with h1 | h1
    · have := hinv.2 id h1 n hn
      push_cast
      omega
    · rcases List.mem_singleton.mp h1 with rfl
      have hp : pyIntParse (lastColonSeg
          (ingest_document hashAbs db args).1.chunk_id.data) = some (db.counter : ℤ) :=
        parse_next_chunk_id _ _
      rw [hp] at hn
      cases hn
      push_cast
      omega

/-- Ingest arguments used by the C9 witness. -/
def w9Args : IngestArgs :=
  { text := "t", uri := "u", valid_window := ⟨0, 1⟩, tx_window := none,
    authority := 1, metadata := [], doc_id := some "d", external_id := none,
    version_id := none, facets := [], entities := [], tags := none, units := [],
    time_granularity := none, time_sigma_days := none }

theorem pvdb_chunk_ids_fresh_and_distinct_witness :
    PVDBInv (loadPVDB [] []) ∧
    (∀ e ∈ (⟨[], [], 1, false⟩ : PVDB).chunks,
      e.1 ≠ (ingest_document (fun _ => 0) ⟨[], [], 1, false⟩ w9Args).1.chunk_id) ∧
    (ingest_document (fun _ => 0) ⟨[], [], 1, false⟩ w9Args).2.counter = 1 + 1 ∧
    PVDBInv (ingest_document (fun _ => 0) ⟨[], [], 1, false⟩ w9Args).2 := by
  have h := pvdb_chunk_ids_fresh_and_distinct
  have h2 := h.2 (fun _ => 0) ⟨[], [], 1, false⟩ w9Args
    ⟨List.nodup_nil, by simp⟩
  exact ⟨h.1 [] [], h2.1, h2.2.1, h2.2.2.2.2⟩

theorem detectPeriods_mem_keys {cfg : RouterConfig} {q : List Char} {t : String}
    (h : t ∈ detectPeriods cfg q) : t ∈ (period_windows cfg).map (·.1) := by
  unfold detectPeriods at h
  rcases List.mem_filterMap.mp h with ⟨e, he, hsome⟩
  by_cases hi : e.1.data <:+: pyLower q
  · rw [if_pos hi] at hsome
    cases hsome
    exact List.mem_map.mpr ⟨e, he, rfl⟩
  · rw [if_neg hi] at hsome
    cases hsome

theorem lookup_of_mem_keys {K V : Type} [DecidableEq K] {b : List (K × V)} {k : K}
    (h : k ∈ b.map (·.1)) : ∃ w, lookupAssoc b k = some w := by
  cases hl : lookupAssoc b k with
  | none => exact absurd h ((lookupAssoc_none_iff b k).mp hl)
  | some w => exact ⟨w, rfl⟩

/-- C6: `_infer_window` resolves the window and window kind in priority order:
explicit hint, then matched fuzzy period, then explicit century with the
configured century padding, then explicit years (one year gives a decade
window with the configured padding, several give a year range), then the broad
default window 0001 to 2100. -/
theorem infer_window_priority (cfg : RouterConfig) (query : String) :
    (∀ h : TimeHint, infer_window cfg query (some h) =
      (normalize_time_hint (some h), "hint")) ∧
    (∀ t ts, detectPeriods cfg query.data = t :: ts →
      ∃ w, lookupAssoc (period_windows cfg) t = some w ∧
        infer_window cfg query none = (w, "period")) ∧
    (detectPeriods cfg query.data = [] →
      ∀ c cs, detectCenturies query.data = c :: cs →
        infer_window cfg query none =
          (make_window
            (jan1 (max 1 (((c : ℤ) - 1) * 100 + 1 - cfg.century_padding_years.getD 50)))
            (some (jan1 ((c : ℤ) * 100 + cfg.century_padding_years.getD 50 + 1))),
            "century")) ∧
    (detectPeriods cfg query.data = [] → detectCenturies query.data = [] →
      ∀ y, detectYears query.data = [y] →
        infer_window cfg query none =
          (make_window (jan1 (max 1 ((y : ℤ) - cfg.decade_padding_years.getD 5)))
            (some (jan1 ((y : ℤ) + cfg.decade_padding_years.getD 5 + 1))), "decade")) ∧
    (detectPeriods cfg query.data = [] → detectCenturies query.data = [] →
      ∀ y0 y1 ys, detectYears query.data = y0 :: y1 :: ys →
        infer_window cfg query none =
          (make_window (jan1 (y0 : ℤ))
            (some (jan1 (((y1 :: ys).getLast (List.cons_ne_nil y1 ys) : ℤ) + 1))),
            "year_range")) ∧
    (detectPeriods cfg query.data = [] → detectCenturies query.data = [] →
      detectYears query.data = [] →
        infer_window cfg query none =
          (make_window (parse_date "0001-01-01") (some (parse_date "2100-01-01")),
            "broad")) := by
  refine ⟨fun h => rfl, ?_, ?_, ?_, ?_, ?_⟩
  · intro t ts hp
    have hkey : t ∈ (period_windows cfg).map (·.1) :=
      detectPeriods_mem_keys (hp ▸ List.mem_cons_self t ts)
    obtain ⟨w, hw⟩ := lookup_of_mem_keys hkey
    refine ⟨w, hw, ?_⟩
    simp only [infer_window, hp]
    rw [if_pos (List.cons_ne_nil t ts)]
    unfold build_period_window
    rw [List.findSome?_cons]
    simp [hw]
  · intro hp c cs hc
    simp only [infer_window, hp, hc]
    rw [if_neg (by simp), if_pos (List.cons_ne_nil c cs)]
    rfl
  · intro hp hc y hy
    simp only [infer_window, hp, hc, hy]
    rw [if_neg (by simp), if_neg (by simp), if_pos (by simp)]
    rfl
  · intro hp hc y0 y1 ys hy
    simp only [infer_window, hp, hc, hy]
    rw [if_neg (by simp), if_neg (by simp), if_pos (by simp)]
    rfl
  · intro hp hc hy
    simp only [infer_window, hp, hc, hy]
    rfl

/-- Router configuration used by the C6 witness. -/
def cfg0 : RouterConfig := ⟨[("post-war", "1945-01-01", "1960-12-31")], some 5, some 50⟩

theorem infer_window_priority_witness :
    infer_window cfg0 "GDP 1870" (some ⟨none, none, none, none⟩) =
      (normalize_time_hint (some ⟨none, none, none, none⟩), "hint") ∧
    (∃ w, lookupAssoc (period_windows cfg0) "post-war" = some w ∧
      infer_window cfg0 "the post-war era" none = (w, "period")) ∧
    infer_window cfg0 "in the 19th century" none =
      (make_window
        (jan1 (max 1 (((19 : ℤ) - 1) * 100 + 1 - cfg0.century_padding_years.getD 50)))
        (some (jan1 ((19 : ℤ) * 100 + cfg0.century_padding_years.getD 50 + 1))),
        "century") ∧
    infer_window cfg0 "GDP 1870 Europe" none =
      (make_window (jan1 (max 1 ((1870 : ℤ) - cfg0.decade_padding_years.getD 5)))
        (some (jan1 ((1870 : ℤ) + cfg0.decade_padding_years.getD 5 + 1))), "decade") ∧
    infer_window cfg0 "from 1865 to 1875" none =
      (make_window (jan1 ((1865 : ℕ) : ℤ))
        (some (jan1 ((((1875 : ℕ) :: []).getLast (List.cons_ne_nil 1875 []) : ℤ) + 1))),
        "year_range") ∧
    infer_window cfg0 "hello" none =
      (make_window (parse_date "0001-01-01") (some (parse_date "2100-01-01")), "broad") :=
  ⟨(infer_window_priority cfg0 "GDP 1870").1 ⟨none, none, none, none⟩,
   (infer_window_priority cfg0 "the post-war era").2.1 "post-war" [] (by decide),
   (infer_window_priority cfg0 "in the 19th century").2.2.1 (by decide) 19 [] (by decide),
   (infer_window_priority cfg0 "GDP 1870 Europe").2.2.2.1 (by decide) (by decide) 1870
     (by decide),
   (infer_window_priority cfg0 "from 1865 to 1875").2.2.2.2.1 (by decide) (by decide)
     1865 1875 [] (by decide),
   (infer_window_priority cfg0 "hello").2.2.2.2.2 (by decide) (by decide) (by decide)⟩
